import Mathlib

/-!
Verification of the two-pass assembler in `assembler.py` (class `AssemblyCompiler`).

The Python code is shallowly embedded: Python strings become `List Char`,
Python's `dict` of labels becomes an association list with most-recent-first
lookup, exceptions become `Except (List Char)` carrying the message text, and
machine integers become `Nat`/`Int`.  Every definition below mirrors a specific
piece of the source file; observers such as `binVal` and `hexVal` are used only
to state properties of the produced bit/hex strings.
-/

namespace Assembler

/-- Python source strings are modelled as lists of characters. -/
abbrev PyStr := List Char

/-- Build a modelled Python string from a Lean string literal. -/
def pystr (s : String) : PyStr := s.toList

/-- The six ASCII whitespace characters recognised by Python's `str.strip()`
(space, tab, newline, vertical tab, form feed, carriage return). -/
def isWS (c : Char) : Bool :=
  c = ' ' ∨ c = Char.ofNat 9 ∨ c = Char.ofNat 10 ∨ c = Char.ofNat 11 ∨
  c = Char.ofNat 12 ∨ c = Char.ofNat 13

/-- Remove the longest suffix of characters satisfying `p` (helper for the
two-sided strips below). -/
def dropTrail (p : Char → Bool) (s : PyStr) : PyStr :=
  (s.reverse.dropWhile p).reverse

/-- Python `str.strip()`: remove leading and trailing whitespace. -/
def pyStripWS (s : PyStr) : PyStr :=
  dropTrail isWS (s.dropWhile isWS)

/-- Python `str.strip(",")`: remove all leading and trailing commas. -/
def pyStripComma (s : PyStr) : PyStr :=
  dropTrail (fun c => c = ',') (s.dropWhile (fun c => c = ','))

/-- Python `str.upper()` on the ASCII range (all mnemonics are ASCII). -/
def pyUpper (c : Char) : Char :=
  if 'a' ≤ c ∧ c ≤ 'z' then Char.ofNat (c.toNat - 32) else c

/-- Worker for `pyWords`: splits on whitespace runs, dropping empty pieces,
accumulating the current word reversed. -/
def wordsGo (cur : PyStr) : PyStr → List PyStr
  | [] => if cur = [] then [] else [cur.reverse]
  | c :: r =>
    if isWS c then
      if cur = [] then wordsGo [] r else cur.reverse :: wordsGo [] r
    else wordsGo (c :: cur) r

/-- Python `str.split()` with no separator: whitespace tokenisation. -/
def pyWords (s : PyStr) : List PyStr := wordsGo [] s

/-- Worker for `pySplit`. -/
def splitGo (sep : Char) (cur : PyStr) : PyStr → List PyStr
  | [] => [cur.reverse]
  | c :: r =>
    if c = sep then cur.reverse :: splitGo sep [] r
    else splitGo sep (c :: cur) r

/-- Python `str.split(sep)` for a one-character separator: keeps empty pieces,
and yields `[""]` on the empty string. -/
def pySplit (sep : Char) (s : PyStr) : List PyStr := splitGo sep [] s

/-- Value of a digit character in the given base (2, 10 or 16), as accepted by
Python's `int(str, base)`. -/
def digitVal (base : Nat) (c : Char) : Option Nat :=
  let v : Option Nat :=
    if '0' ≤ c ∧ c ≤ '9' then some (c.toNat - '0'.toNat)
    else if 'a' ≤ c ∧ c ≤ 'f' then some (c.toNat - 'a'.toNat + 10)
    else if 'A' ≤ c ∧ c ≤ 'F' then some (c.toNat - 'A'.toNat + 10)
    else none
  match v with
  | some d => if d < base then some d else none
  | none => none

/-- Digit run after the first digit: single underscores are allowed strictly
between digits, as in CPython's number parsing. -/
def digitsRunGo (base : Nat) (acc : Nat) : PyStr → Option Nat
  | [] => some acc
  | c :: rest =>
    if c = '_' then
      match rest with
      | c2 :: rest2 =>
        match digitVal base c2 with
        | some d => digitsRunGo base (acc * base + d) rest2
        | none => none
      | [] => none
    else
      match digitVal base c with
      | some d => digitsRunGo base (acc * base + d) rest
      | none => none

/-- A non-empty digit run `digit ( _? digit )*`. -/
def digitsRun (base : Nat) : PyStr → Option Nat
  | c :: rest =>
    match digitVal base c with
    | some d => digitsRunGo base d rest
    | none => none
  | [] => none

/-- Digit part of `int(str, base)`: directly after a base prefix a single
leading underscore is also allowed (`int("0x_1f", 16)` is valid). -/
def pyIntCore (base : Nat) (afterPrefix : Bool) (s : PyStr) : Option Nat :=
  match s with
  | '_' :: rest => if afterPrefix then digitsRun base rest else none
  | _ => digitsRun base s

/-- Model of Python's `int(s, base)` for bases 2, 10 and 16: optional
surrounding whitespace, optional sign, optional `0b`/`0x` prefix for bases
2/16, then digits with underscores; `none` models the raised `ValueError`. -/
def pyInt (base : Nat) (s : PyStr) : Option Int :=
  let s1 := pyStripWS s
  let sgn : Int := match s1 with
    | '-' :: _ => -1
    | _ => 1
  let s2 : PyStr := match s1 with
    | '-' :: r => r
    | '+' :: r => r
    | _ => s1
  let pref : Option PyStr :=
    if base = 16 then
      match s2 with
      | '0' :: c :: r => if c = 'x' ∨ c = 'X' then some r else none
      | _ => none
    else if base = 2 then
      match s2 with
      | '0' :: c :: r => if c = 'b' ∨ c = 'B' then some r else none
      | _ => none
    else none
  match pref with
  | some r => (pyIntCore base true r).map (fun n => sgn * (n : Int))
  | none => (pyIntCore base false s2).map (fun n => sgn * (n : Int))

/-- Python `format(v, "05b")`: binary digits of a non-negative value, padded
with `'0'` on the left to width 5 (wider values keep all their digits). -/
def format05b (n : Nat) : PyStr :=
  let d := Nat.toDigits 2 n
  if d.length < 5 then List.replicate (5 - d.length) '0' ++ d else d

/-- Python `str.zfill(w)`: pad with leading zeros to width `w`, keeping a
leading sign character in place. -/
def pyZfill (w : Nat) (s : PyStr) : PyStr :=
  match s with
  | c :: r =>
    if c = '+' ∨ c = '-' then
      c :: (if r.length < w - 1 then List.replicate (w - 1 - r.length) '0' ++ r else r)
    else if s.length < w then List.replicate (w - s.length) '0' ++ s else s
  | [] => List.replicate w '0'

/-- Python `hex(v)`: `0x` plus lowercase hex digits, sign in front when
negative. -/
def pyHexInt (v : Int) : PyStr :=
  if v < 0 then '-' :: '0' :: 'x' :: Nat.toDigits 16 (-v).toNat
  else '0' :: 'x' :: Nat.toDigits 16 v.toNat

/-- Errors are the message strings carried by the raised Python exceptions. -/
abbrev Err := PyStr

instance {α β : Type} [DecidableEq α] [DecidableEq β] : DecidableEq (Except α β) :=
  fun a b =>
    match a, b with
    | .error x, .error y =>
      if h : x = y then .isTrue (h ▸ rfl)
      else .isFalse fun hc => h (Except.error.inj hc)
    | .ok x, .ok y =>
      if h : x = y then .isTrue (h ▸ rfl)
      else .isFalse fun hc => h (Except.ok.inj hc)
    | .error _, .ok _ => .isFalse fun hc => Except.noConfusion hc
    | .ok _, .error _ => .isFalse fun hc => Except.noConfusion hc

/-- The label dictionary `self.labels`: association list where an insertion
prepends, so lookup finds the most recent binding (Python dict overwrite). -/
abbrev LabelTable := List (PyStr × Nat)

/-- Dictionary lookup (`arg in self.labels` / `self.labels[arg]`). -/
def dictGet? {α : Type} (d : List (PyStr × α)) (k : PyStr) : Option α :=
  match d with
  | [] => none
  | (k2, v) :: r => if k2 = k then some v else dictGet? r k

/-- `self.labels[label] = addr`. -/
def dictInsert (d : LabelTable) (k : PyStr) (v : Nat) : LabelTable := (k, v) :: d

/-- The fixed `self.instructions` opcode table from `__init__`. -/
def instructions : List (PyStr × PyStr) :=
  [ (pystr "NOP", pystr "0000"),
    (pystr "JMP", pystr "0001"),
    (pystr "JEQ", pystr "0010"),
    (pystr "STORE", pystr "0011"),
    (pystr "CMP", pystr "0100"),
    (pystr "OUT", pystr "0101"),
    (pystr "IN", pystr "0110"),
    (pystr "MOV", pystr "0111"),
    (pystr "HALT", pystr "1000"),
    (pystr "MOVE_UP", pystr "1001"),
    (pystr "MOVE_DOWN", pystr "1010"),
    (pystr "SCORE_INCREMENT", pystr "1011"),
    (pystr "SPAWN_OBSTACLE", pystr "1100"),
    (pystr "GAME_OVER", pystr "1101"),
    (pystr "START_GAME", pystr "1110"),
    (pystr "TITLE_SCREEN", pystr "1111") ]

/-- The mnemonic list of the zero-argument branch in `second_pass` (note
`SPAWN_FISH`, which is absent from the opcode table). -/
def zeroArgNames : List PyStr :=
  [ pystr "NOP", pystr "HALT", pystr "MOVE_UP", pystr "MOVE_DOWN",
    pystr "SCORE_INCREMENT", pystr "SPAWN_FISH", pystr "GAME_OVER",
    pystr "START_GAME", pystr "TITLE_SCREEN" ]

/-- The mnemonic list of the first one-argument branch in `second_pass`. -/
def oneArgNamesA : List PyStr :=
  [ pystr "JMP", pystr "JEQ", pystr "OUT", pystr "IN" ]

/-- The mnemonic list of the second one-argument branch in `second_pass`. -/
def oneArgNamesB : List PyStr :=
  [ pystr "CMP", pystr "MOV", pystr "STORE" ]

/-- The directive name compared against by both passes. -/
def ORGstr : PyStr := pystr "ORG"

/-- Message of `ValueError("ORG directive requires exactly one argument")`. -/
def orgMsg : Err := pystr "ORG directive requires exactly one argument"

/-- Message of `ValueError(f"Invalid hex number: {arg}")`. -/
def invalidHexMsg (a : PyStr) : Err := pystr "Invalid hex number: " ++ a

/-- Message of `ValueError(f"Invalid binary number: {arg}")`. -/
def invalidBinMsg (a : PyStr) : Err := pystr "Invalid binary number: " ++ a

/-- Message of `ValueError(f"Cannot resolve argument: {arg}")`. -/
def cannotResolveMsg (a : PyStr) : Err := pystr "Cannot resolve argument: " ++ a

/-- Message of `ValueError(f"Unknown instruction: {instruction}")`. -/
def unknownMsg (m : PyStr) : Err := pystr "Unknown instruction: " ++ m

/-- Message of `ValueError(f"{instruction} takes no arguments")`. -/
def noArgsMsg (m : PyStr) : Err := m ++ pystr " takes no arguments"

/-- Message of `ValueError(f"{instruction} requires exactly 1 argument")`. -/
def oneArgMsg (m : PyStr) : Err := m ++ pystr " requires exactly 1 argument"

/-- Message of the `ValueError` Python's `int(s, 2)` raises on a malformed
string (unreachable on the strings `resolve_argument` actually returns). -/
def intBase2Msg (s : PyStr) : Err :=
  pystr "invalid literal for int() with base 2: " ++ s

/-- Message of `Exception(f"Error on line {line_num}: {e}")` in `second_pass`. -/
def wrapMsg (n : Nat) (e : Err) : Err :=
  pystr "Error on line " ++ Nat.toDigits 10 n ++ pystr ": " ++ e

/-- Comment stripping and outer whitespace strip at the top of `parse_line`:
`line.split(";")[0].strip()`. -/
def stripCommented (line : PyStr) : PyStr :=
  pyStripWS (line.takeWhile (fun c => c ≠ ';'))

/-- The label split in `parse_line`: on the first `:` (if any), the left part
stripped is the label, the right part stripped is the remaining text. -/
def labelSplit (line : PyStr) : Option PyStr × PyStr :=
  if ':' ∈ line then
    (some (pyStripWS (line.takeWhile (fun c => c ≠ ':'))),
     pyStripWS ((line.dropWhile (fun c => c ≠ ':')).drop 1))
  else (none, line)

/-- `AssemblyCompiler.parse_line`: label, upper-cased mnemonic, and argument
tokens with commas stripped from both ends (Python `arg.strip(",")`). -/
def parse_line (line : PyStr) : Option PyStr × Option PyStr × List PyStr :=
  let l1 := stripCommented line
  if l1 = [] then (none, none, [])
  else
    let lab := (labelSplit l1).1
    let body := (labelSplit l1).2
    if body = [] then (lab, none, [])
    else
      match pyWords body with
      | [] => (lab, none, [])
      | t :: rest => (lab, some (t.map pyUpper), rest.map pyStripComma)

/-- `AssemblyCompiler.resolve_argument`.  Note two faithful quirks of the
source: an out-of-range hex/binary literal raises a `ValueError` inside the
`try`, which the `except ValueError` clause immediately converts into the
"Invalid hex/binary number" message; and an out-of-range decimal raises a
`ValueError` that the bare `except ValueError: pass` swallows, falling through
to "Cannot resolve argument". -/
def resolve_argument (labels : LabelTable) (arg : PyStr) : Except Err PyStr :=
  match dictGet? labels arg with
  | some addr => .ok (format05b addr)
  | none =>
    if (pystr "0x").isPrefixOf arg ∨ (pystr "0X").isPrefixOf arg then
      match pyInt 16 arg with
      | some v => if 0 ≤ v ∧ v ≤ 31 then .ok (format05b v.toNat)
                  else .error (invalidHexMsg arg)
      | none => .error (invalidHexMsg arg)
    else if (pystr "0b").isPrefixOf arg ∨ (pystr "0B").isPrefixOf arg then
      match pyInt 2 arg with
      | some v => if 0 ≤ v ∧ v ≤ 31 then .ok (format05b v.toNat)
                  else .error (invalidBinMsg arg)
      | none => .error (invalidBinMsg arg)
    else
      match pyInt 10 arg with
      | some v => if 0 ≤ v ∧ v ≤ 31 then .ok (format05b v.toNat)
                  else .error (cannotResolveMsg arg)
      | none => .error (cannotResolveMsg arg)

/-- Label recording in `first_pass`: `if label: self.labels[label] = addr`
(an empty label string is falsy and is not recorded). -/
def recordLabel (labels : LabelTable) (lab : Option PyStr) (addr : Nat) : LabelTable :=
  match lab with
  | some l => if l = [] then labels else dictInsert labels l addr
  | none => labels

/-- One line of `first_pass`: state is `(self.labels, self.current_address)`. -/
def fpLine (st : LabelTable × Nat) (line : PyStr) : Except Err (LabelTable × Nat) :=
  match parse_line line with
  | (lab, instr?, args) =>
    if instr? = some ORGstr then
      match args with
      | [tok] =>
        match resolve_argument st.1 tok with
        | .error e => .error e
        | .ok b =>
          match pyInt 2 b with
          | some v => .ok (st.1, v.toNat)
          | none => .error (intBase2Msg b)
      | _ => .error orgMsg
    else
      let labels := recordLabel st.1 lab st.2
      if instr?.isSome then .ok (labels, st.2 + 1) else .ok (labels, st.2)

/-- The loop of `first_pass` over the remaining lines. -/
def fpGo (st : LabelTable × Nat) : List PyStr → Except Err (LabelTable × Nat)
  | [] => .ok st
  | l :: ls =>
    match fpLine st l with
    | .error e => .error e
    | .ok st2 => fpGo st2 ls

/-- `AssemblyCompiler.first_pass`, started from the instance state `labels0`
(the address counter is reset to 0 at the top of the method, the label table
is not). -/
def first_pass (labels0 : LabelTable) (lines : List PyStr) :
    Except Err (LabelTable × Nat) :=
  fpGo (labels0, 0) lines

/-- The body of the `second_pass` loop after `parse_line`, for one parsed
line: returns the new address counter and the pairs appended to
`machine_code` (zero or one). -/
def processParsed (labels : LabelTable) (addr : Nat) :
    Option PyStr × Option PyStr × List PyStr → Except Err (Nat × List (Nat × PyStr))
  | (_, instr?, args) =>
    match instr? with
    | none => .ok (addr, [])
    | some instr =>
      if instr = ORGstr then
        match args with
        | [tok] =>
          match resolve_argument labels tok with
          | .error e => .error e
          | .ok b =>
            match pyInt 2 b with
            | some v => .ok (v.toNat, [])
            | none => .error (intBase2Msg b)
        | _ => .error orgMsg
      else
        match dictGet? instructions instr with
        | none => .error (unknownMsg instr)
        | some opcode =>
          if instr ∈ zeroArgNames then
            if args = [] then .ok (addr + 1, [(addr, opcode ++ pystr "00000")])
            else .error (noArgsMsg instr)
          else if instr ∈ oneArgNamesA then
            match args with
            | [tok] =>
              match resolve_argument labels tok with
              | .error e => .error e
              | .ok b => .ok (addr + 1, [(addr, opcode ++ b)])
            | _ => .error (oneArgMsg instr)
          else if instr ∈ oneArgNamesB then
            match args with
            | [tok] =>
              match resolve_argument labels tok with
              | .error e => .error e
              | .ok b => .ok (addr + 1, [(addr, opcode ++ b)])
            | _ => .error (oneArgMsg instr)
          else .ok (addr + 1, [])

/-- The `second_pass` loop: `n` is the 1-based line number used in the error
annotation, `addr` the address counter; returns the final address counter and
the emitted `(address, word)` pairs. -/
def spGo (labels : LabelTable) (n addr : Nat) :
    List PyStr → Except Err (Nat × List (Nat × PyStr))
  | [] => .ok (addr, [])
  | l :: ls =>
    match processParsed labels addr (parse_line l) with
    | .error e => .error (wrapMsg n e)
    | .ok (addr2, em) =>
      match spGo labels (n + 1) addr2 ls with
      | .error e => .error e
      | .ok (af, rest) => .ok (af, em ++ rest)

/-- `AssemblyCompiler.second_pass`: machine-code pairs only. -/
def second_pass (labels : LabelTable) (lines : List PyStr) :
    Except Err (List (Nat × PyStr)) :=
  (spGo labels 1 0 lines).map (fun r => r.2)

/-- `AssemblyCompiler.compile`, started from the instance label table
`labels0` (`{}` on a freshly constructed compiler): strip and split the
source, run `first_pass` (which grows `labels0`), then `second_pass` on the
resulting table. -/
def compile (labels0 : LabelTable) (src : PyStr) : Except Err (List (Nat × PyStr)) :=
  let lines := pySplit (Char.ofNat 10) (pyStripWS src)
  match first_pass labels0 lines with
  | .error e => .error e
  | .ok (labels, _) => second_pass labels lines

/-- One word of `binary_to_hex`: `hex(int(binary, 2))[2:].upper().zfill(3)`. -/
def b2hWord (b : PyStr) : Except Err PyStr :=
  match pyInt 2 b with
  | none => .error (intBase2Msg b)
  | some v => .ok (pyZfill 3 (((pyHexInt v).drop 2).map pyUpper))

/-- `AssemblyCompiler.binary_to_hex`: converts each pair's word, keeping its
address. -/
def binary_to_hex : List (Nat × PyStr) → Except Err (List (Nat × PyStr))
  | [] => .ok []
  | (a, b) :: rest =>
    match b2hWord b with
    | .error e => .error e
    | .ok h =>
      match binary_to_hex rest with
      | .error e => .error e
      | .ok r => .ok ((a, h) :: r)

/-- Value of a bit string (observer used to state what "the low 5 bits of the
word" denote). -/
def binVal (s : PyStr) : Nat :=
  s.foldl (fun a c => a * 2 + (if c = '1' then 1 else 0)) 0

/-- Value of an (upper- or lowercase) hex string (observer for the hex
formatter's output). -/
def hexVal (s : PyStr) : Nat :=
  s.foldl (fun a c => a * 16 + ((digitVal 16 c).getD 0)) 0

/-- The forward-reference family: `JMP TARGET`, then `n` `NOP` lines, then
`TARGET: HALT`, so the first pass assigns `TARGET` the address `n + 1`. -/
def linesFam (n : Nat) : List PyStr :=
  pystr "JMP TARGET" :: (List.replicate n (pystr "NOP") ++ [pystr "TARGET: HALT"])

/-- The pairs the second pass emits for the `NOP` and `HALT` lines of
`linesFam n`. -/
def nopTail (n : Nat) : List (Nat × PyStr) :=
  (List.range n).map (fun i => (i + 1, pystr "000000000")) ++ [(n + 1, pystr "100000000")]

set_option maxRecDepth 16384

/-- C1 (counterexample): with 31 `NOP` lines between `JMP TARGET` and
`TARGET: HALT`, the first pass records address 32 for `TARGET`, compilation
still succeeds, but the word emitted for the JMP line is the 10-character
string `0001100000` whose low 5 bits have value 0, not 32 — so the claimed
equality does not hold "regardless of how far forward" the definition is. -/
theorem claim1_counterexample :
    first_pass [] (linesFam 31) = .ok ([(pystr "TARGET", 32)], 33) ∧
    spGo [(pystr "TARGET", 32)] 1 0 (linesFam 31) =
      .ok (33, (0, pystr "0001100000") :: nopTail 31) ∧
    (pystr "0001100000").length = 10 ∧
    binVal ((pystr "0001100000").drop ((pystr "0001100000").length - 5)) = 0 ∧
    (0 : Nat) ≠ 32 := by decide

/-- C1 (amended): for `JMP TARGET` followed `n ≤ 30` lines later by
`TARGET: HALT` (so that `TARGET`'s first-pass address `n + 1` fits in 5
bits), compilation succeeds, the word emitted for the JMP line is 9 bits,
and its low 5 bits equal the address the first pass recorded for `TARGET`. -/
theorem claim1_amended :
    ∀ (n : Nat), n ≤ 30 →
      first_pass [] (linesFam n) = .ok ([(pystr "TARGET", n + 1)], n + 2) ∧
      spGo [(pystr "TARGET", n + 1)] 1 0 (linesFam n) =
        .ok (n + 2, (0, pystr "0001" ++ format05b (n + 1)) :: nopTail n) ∧
      (pystr "0001" ++ format05b (n + 1)).length = 9 ∧
      binVal (List.drop 4 (pystr "0001" ++ format05b (n + 1))) = n + 1 :=
  @of_decide_eq_true _ (@Nat.decidableBallLE 30 _ (fun _ _ => inferInstance)) rfl

/-- Witness for C1 (amended) at `n = 3`. -/
theorem claim1_amended_witness :
    first_pass [] (linesFam 3) = .ok ([(pystr "TARGET", 3 + 1)], 3 + 2) ∧
    spGo [(pystr "TARGET", 3 + 1)] 1 0 (linesFam 3) =
      .ok (3 + 2, (0, pystr "0001" ++ format05b (3 + 1)) :: nopTail 3) ∧
    (pystr "0001" ++ format05b (3 + 1)).length = 9 ∧
    binVal (List.drop 4 (pystr "0001" ++ format05b (3 + 1))) = 3 + 1 :=
  claim1_amended 3 (by decide)

/-- The three-line source whose ORG argument `10` is also defined as a label:
the two passes then resolve the ORG argument differently. -/
def c2lines : List PyStr := [pystr "ORG 10", pystr "X: NOP", pystr "10: HALT"]

/-- C2 (counterexample): on `["ORG 10", "X: NOP", "10: HALT"]` compilation
succeeds, the first pass records `X ↦ 10` (its ORG resolved `10` numerically,
the label `10` not being defined yet), but the second pass resolves the same
ORG argument against the completed table (label `10 ↦ 11`), so the `X`-labelled
`NOP` is emitted at address 11, not 10, and the two passes' final address
counters differ (12 vs 13): the claimed agreement fails. -/
theorem claim2_counterexample :
    first_pass [] c2lines = .ok ([(pystr "10", 11), (pystr "X", 10)], 12) ∧
    dictGet? [(pystr "10", 11), (pystr "X", 10)] (pystr "X") = some 10 ∧
    spGo [(pystr "10", 11), (pystr "X", 10)] 1 0 c2lines =
      .ok (13, [(11, pystr "000000000"), (12, pystr "100000000")]) ∧
    (11 : Nat) ≠ 10 ∧ (12 : Nat) ≠ 13 := by decide

/-- C3: out-of-range literals are rejected, but never with a distinct
out-of-range error: the `ValueError` raised for an out-of-range hex/binary
literal is caught by the surrounding `except ValueError` clause and replaced
by the invalid-number message, and the one raised for an out-of-range decimal
is swallowed by `except ValueError: pass` and replaced by the
unresolvable-argument message.  `MOV 0x20` therefore fails with
"Invalid hex number: 0x20" (the same error an unparsable `0xzz` gets), `32`
fails with "Cannot resolve argument: 32" (the same error an unresolvable
token gets), while `MOV 31` succeeds with operand bits `11111`. -/
theorem claim3_no_distinct_range_error :
    resolve_argument [] (pystr "0x20") = .error (invalidHexMsg (pystr "0x20")) ∧
    resolve_argument [] (pystr "0xzz") = .error (invalidHexMsg (pystr "0xzz")) ∧
    resolve_argument [] (pystr "0b100000") = .error (invalidBinMsg (pystr "0b100000")) ∧
    resolve_argument [] (pystr "32") = .error (cannotResolveMsg (pystr "32")) ∧
    resolve_argument [] (pystr "zz") = .error (cannotResolveMsg (pystr "zz")) ∧
    compile [] (pystr "MOV 0x20") = .error (wrapMsg 1 (invalidHexMsg (pystr "0x20"))) ∧
    compile [] (pystr "MOV 31") = .ok [(0, pystr "011111111")] ∧
    resolve_argument [] (pystr "31") = .ok (pystr "11111") := by decide

/-- C5: the label table is created once in `__init__` and never cleared by
`compile`/`first_pass` (only the address counter is reset), so state leaks
across runs: compiling `JMP FOO` on a fresh instance fails, but compiling it
on an instance that previously compiled `FOO: HALT` (leaving `FOO ↦ 0` in
`self.labels`) succeeds and emits a word — the run-scoped-state claim is
violated by the code. -/
theorem claim5_state_leaks_across_runs :
    compile [] (pystr "JMP FOO") = .error (wrapMsg 1 (cannotResolveMsg (pystr "FOO"))) ∧
    compile [] (pystr "FOO: HALT") = .ok [(0, pystr "100000000")] ∧
    first_pass [] [pystr "FOO: HALT"] = .ok ([(pystr "FOO", 0)], 1) ∧
    compile [(pystr "FOO", 0)] (pystr "JMP FOO") = .ok [(0, pystr "000100000")] ∧
    (Except.error (wrapMsg 1 (cannotResolveMsg (pystr "FOO"))) ≠
      (.ok [(0, pystr "000100000")] : Except Err (List (Nat × PyStr)))) := by decide

/-- C10 (counterexample): `parse_line` strips commas from both ends of an
argument token (Python `arg.strip(",")`), so the token `,5` of `MOV ,5`
becomes `5` — it does not keep its leading comma as the claim states. -/
theorem claim10_counterexample :
    parse_line (pystr "MOV ,5") = (none, some (pystr "MOV"), [pystr "5"]) ∧
    [pystr "5"] ≠ [pystr ",5"] := by decide

/-- C7: for every one-argument mnemonic and every value `v ≤ 31`, compiling
the single line `M v` with `v` written as a decimal literal (`str(v)`), as a
`0x` hexadecimal literal (`hex(v)`), or as a `0b` binary literal (`bin(v)`)
yields identical (address, word) output. -/
theorem claim7_literal_forms :
    ∀ m ∈ [pystr "JMP", pystr "JEQ", pystr "OUT", pystr "IN",
           pystr "CMP", pystr "MOV", pystr "STORE"],
    ∀ (v : Nat), v ≤ 31 →
      compile [] (m ++ ' ' :: Nat.toDigits 10 v) =
        compile [] (m ++ ' ' :: (pystr "0x" ++ Nat.toDigits 16 v)) ∧
      compile [] (m ++ ' ' :: Nat.toDigits 10 v) =
        compile [] (m ++ ' ' :: (pystr "0b" ++ Nat.toDigits 2 v)) := by decide

/-- Witness for C7 at `M = MOV`, `v = 5`. -/
theorem claim7_literal_forms_witness :
    compile [] (pystr "MOV" ++ ' ' :: Nat.toDigits 10 5) =
      compile [] (pystr "MOV" ++ ' ' :: (pystr "0x" ++ Nat.toDigits 16 5)) ∧
    compile [] (pystr "MOV" ++ ' ' :: Nat.toDigits 10 5) =
      compile [] (pystr "MOV" ++ ' ' :: (pystr "0b" ++ Nat.toDigits 2 5)) :=
  claim7_literal_forms (pystr "MOV") (by decide) 5 (by decide)

/-- C4: `SPAWN_OBSTACLE` is in the opcode table but in neither arity list of
the encoder, so a `SPAWN_OBSTACLE` line passes the existence check, matches
no arity branch, emits nothing, raises nothing, and still advances the
address counter by 1; `SPAWN_FISH` is in the zero-argument arity list but not
in the opcode table, so a `SPAWN_FISH` line always fails the existence check
with the unknown-instruction error. -/
theorem claim4_spawn_obstacle_silent :
    (∀ (labels : LabelTable) (addr : Nat) (line : PyStr) (lab : Option PyStr),
       parse_line line = (lab, some (pystr "SPAWN_OBSTACLE"), []) →
       processParsed labels addr (parse_line line) = .ok (addr + 1, [])) ∧
    dictGet? instructions (pystr "SPAWN_OBSTACLE") = some (pystr "1100") ∧
    pystr "SPAWN_OBSTACLE" ∉ zeroArgNames ∧
    pystr "SPAWN_OBSTACLE" ∉ oneArgNamesA ∧
    pystr "SPAWN_OBSTACLE" ∉ oneArgNamesB ∧
    pystr "SPAWN_FISH" ∈ zeroArgNames ∧
    dictGet? instructions (pystr "SPAWN_FISH") = none ∧
    (∀ (labels : LabelTable) (addr : Nat) (line : PyStr) (lab : Option PyStr)
       (args : List PyStr),
       parse_line line = (lab, some (pystr "SPAWN_FISH"), args) →
       processParsed labels addr (parse_line line) =
         .error (unknownMsg (pystr "SPAWN_FISH"))) := by
  refine ⟨?_, by decide, by decide, by decide, by decide, by decide, by decide, ?_⟩
  · intro labels addr line lab hparse
    rw [hparse]
    simp +decide [processParsed, dictGet?, instructions, pystr]
  · intro labels addr line lab args hparse
    rw [hparse]
    simp +decide [processParsed, dictGet?, instructions, pystr]

/-- Witness for C4 on the concrete lines `SPAWN_OBSTACLE` and `SPAWN_FISH`. -/
theorem claim4_spawn_obstacle_silent_witness :
    processParsed [] 7 (parse_line (pystr "SPAWN_OBSTACLE")) = .ok (7 + 1, []) ∧
    processParsed [] 7 (parse_line (pystr "SPAWN_FISH")) =
      .error (unknownMsg (pystr "SPAWN_FISH")) :=
  ⟨claim4_spawn_obstacle_silent.1 [] 7 (pystr "SPAWN_OBSTACLE") none (by decide),
   claim4_spawn_obstacle_silent.2.2.2.2.2.2.2 [] 7 (pystr "SPAWN_FISH") none [] (by decide)⟩

/-- Every error the `second_pass` loop returns comes from the first failing
line: it is the line's own error wrapped as "Error on line N", all earlier
lines processed successfully, and nothing is emitted. -/
theorem spGo_error_located :
    ∀ (ls : List PyStr) (labels : LabelTable) (k a : Nat) (e : Err),
      spGo labels k a ls = .error e →
      ∃ (j : Nat) (hj : j < ls.length) (cause : Err) (aj : Nat) (wsj : List (Nat × PyStr)),
        e = wrapMsg (k + j) cause ∧
        spGo labels k a (ls.take j) = .ok (aj, wsj) ∧
        processParsed labels aj (parse_line ls[j]) = .error cause := by
  intro ls
  induction ls with
  | nil => intro labels k a e h; simp [spGo] at h
  | cons l ls ih =>
    intro labels k a e h
    rw [spGo] at h
    cases hp : processParsed labels a (parse_line l) with
    | error c =>
      simp only [hp] at h
      refine ⟨0, by simp, c, a, [], ?_, ?_, ?_⟩
      · cases h; simp
      · simp [spGo]
      · simpa using hp
    | ok p =>
      obtain ⟨a2, em⟩ := p
      simp only [hp] at h
      cases hrest : spGo labels (k + 1) a2 ls with
      | error e2 =>
        simp only [hrest] at h
        cases h
        obtain ⟨j, hj, cause, aj, wsj, he, hpre, hline⟩ := ih labels (k + 1) a2 _ hrest
        refine ⟨j + 1, by simpa using Nat.succ_lt_succ hj, cause, aj, em ++ wsj, ?_, ?_, ?_⟩
        · rw [he]; congr 1; omega
        · simp only [List.take_succ_cons, spGo, hp, hpre]
        · simpa using hline
      | ok p2 => simp only [hrest] at h; exact absurd h (by simp)

/-- C8: if any line fails during the second pass, the whole pass returns a
single error (no partial word list), the message is the failing line's own
error wrapped as "Error on line N: cause" with N its 1-based index, every
earlier line was processed successfully, and the error propagates unchanged
through `compile`. -/
theorem claim8_fail_fast :
    ∀ (labels : LabelTable) (lines : List PyStr) (e : Err),
      spGo labels 1 0 lines = .error e →
      (∃ (j : Nat) (hj : j < lines.length) (cause : Err) (aj : Nat)
         (wsj : List (Nat × PyStr)),
         e = wrapMsg (j + 1) cause ∧
         spGo labels 1 0 (lines.take j) = .ok (aj, wsj) ∧
         processParsed labels aj (parse_line lines[j]) = .error cause) ∧
      second_pass labels lines = .error e ∧
      (∀ (labels0 : LabelTable) (src : PyStr) (af : Nat),
         pySplit (Char.ofNat 10) (pyStripWS src) = lines →
         first_pass labels0 lines = .ok (labels, af) →
         compile labels0 src = .error e) := by
  intro labels lines e h
  refine ⟨?_, ?_, ?_⟩
  · obtain ⟨j, hj, cause, aj, wsj, he, hpre, hline⟩ := spGo_error_located lines labels 1 0 e h
    exact ⟨j, hj, cause, aj, wsj, by rw [he]; congr 1; omega, hpre, hline⟩
  · simp [second_pass, h, Except.map]
  · intro labels0 src af hsplit hfp
    simp [compile, hsplit, hfp, second_pass, h, Except.map]

/-- Witness for C8 on `["NOP", "FOO"]`: the unknown instruction on line 2
aborts the pass with "Error on line 2: Unknown instruction: FOO". -/
theorem claim8_fail_fast_witness :
    ∃ (j : Nat) (hj : j < ([pystr "NOP", pystr "FOO"] : List PyStr).length)
      (cause : Err) (aj : Nat) (wsj : List (Nat × PyStr)),
      wrapMsg 2 (unknownMsg (pystr "FOO")) = wrapMsg (j + 1) cause ∧
      spGo [] 1 0 (([pystr "NOP", pystr "FOO"] : List PyStr).take j) = .ok (aj, wsj) ∧
      processParsed [] aj (parse_line ([pystr "NOP", pystr "FOO"] : List PyStr)[j]) =
        .error cause :=
  (claim8_fail_fast [] [pystr "NOP", pystr "FOO"]
    (wrapMsg 2 (unknownMsg (pystr "FOO"))) (by decide)).1

/-- The value `binary_to_hex` computes for one valid word, at the level of the
bit value: three zero-filled uppercase hex digits. -/
def hex3 (n : Nat) : PyStr := pyZfill 3 ((Nat.toDigits 16 n).map pyUpper)

/-- The bit-string fold underlying `binVal`, bounded by the length. -/
theorem binFoldl_lt (s : PyStr) :
    ∀ a : Nat,
      s.foldl (fun a c => a * 2 + (if c = '1' then 1 else 0)) a < (a + 1) * 2 ^ s.length := by
  induction s with
  | nil => intro a; simp
  | cons c r ih =>
    intro a
    have hb : (if c = '1' then 1 else 0) ≤ 1 := by split <;> omega
    calc r.foldl (fun a c => a * 2 + (if c = '1' then 1 else 0))
            (a * 2 + (if c = '1' then 1 else 0))
        < (a * 2 + (if c = '1' then 1 else 0) + 1) * 2 ^ r.length := ih _
      _ ≤ ((a + 1) * 2) * 2 ^ r.length := by
          have : a * 2 + (if c = '1' then 1 else 0) + 1 ≤ (a + 1) * 2 := by omega
          exact Nat.mul_le_mul_right _ this
      _ = (a + 1) * 2 ^ (r.length + 1) := by ring

/-- A bit string's value is below `2 ^ length`. -/
theorem binVal_lt (s : PyStr) : binVal s < 2 ^ s.length := by
  have := binFoldl_lt s 0
  simpa [binVal] using this

/-- `List.dropWhile` is the identity when no element satisfies the predicate. -/
theorem dropWhile_eq_self_of (p : Char → Bool) (s : PyStr)
    (h : ∀ c ∈ s, p c = false) : s.dropWhile p = s := by
  cases s with
  | nil => rfl
  | cons c r => simp [List.dropWhile_cons, h c (by simp)]

/-- `pyStripWS` is the identity on strings without whitespace characters. -/
theorem pyStripWS_eq_self (s : PyStr) (h : ∀ c ∈ s, isWS c = false) :
    pyStripWS s = s := by
  rw [pyStripWS, dropWhile_eq_self_of isWS s h, dropTrail,
      dropWhile_eq_self_of isWS s.reverse (fun c hc => h c (List.mem_reverse.mp hc)),
      List.reverse_reverse]

/-- `digitsRunGo` in base 2 on a pure 0/1 string computes the bit fold. -/
theorem digitsRunGo_two_eq (s : PyStr) :
    ∀ acc : Nat, (∀ c ∈ s, c = '0' ∨ c = '1') →
      digitsRunGo 2 acc s =
        some (s.foldl (fun a c => a * 2 + (if c = '1' then 1 else 0)) acc) := by
  induction s with
  | nil => intro acc _; rfl
  | cons c r ih =>
    intro acc h
    have htail : ∀ c ∈ r, c = '0' ∨ c = '1' := fun x hx => h x (by simp [hx])
    rcases h c (by simp) with rfl | rfl <;>
    · rw [digitsRunGo.eq_def]
      simp [digitVal]
      exact ih _ htail

/-- Python's `int(s, 2)` on a non-empty pure 0/1 string returns its value. -/
theorem pyInt_two_01 (s : PyStr) (hne : s ≠ []) (h01 : ∀ c ∈ s, c = '0' ∨ c = '1') :
    pyInt 2 s = some ((binVal s : Nat) : Int) := by
  have hws : pyStripWS s = s := by
    refine pyStripWS_eq_self s (fun c hc => ?_)
    rcases h01 c hc with rfl | rfl <;> decide
  obtain ⟨c, r, rfl⟩ : ∃ c r, s = c :: r := by
    cases s with
    | nil => exact absurd rfl hne
    | cons c r => exact ⟨c, r, rfl⟩
  have htail : ∀ x ∈ r, x = '0' ∨ x = '1' := fun x hx => h01 x (by simp [hx])
  cases r with
  | nil => rcases h01 c (by simp) with rfl | rfl <;> decide
  | cons c2 r2 =>
    have htail2 : ∀ x ∈ r2, x = '0' ∨ x = '1' := fun x hx => htail x (by simp [hx])
    rcases h01 c (by simp) with rfl | rfl <;>
      rcases htail c2 (by simp) with rfl | rfl <;>
      · rw [pyInt, hws]
        simp [pyIntCore, digitsRun, digitVal, binVal]
        rw [digitsRunGo_two_eq _ _ htail]
        simp

/-- Properties of the per-word hex value for all 9-bit values. -/
theorem hex3_props :
    ∀ n : Nat, n < 512 →
      (hex3 n).length = 3 ∧ (∀ c ∈ hex3 n, c ∈ pystr "0123456789ABCDEF") ∧
      hexVal (hex3 n) = n :=
  @of_decide_eq_true _ (@Nat.decidableBallLT 512 _ (fun _ _ => inferInstance)) rfl

/-- `b2hWord` on a valid 9-bit word never fails and computes `hex3`. -/
theorem b2hWord_valid (b : PyStr) (hlen : b.length = 9)
    (h01 : ∀ c ∈ b, c = '0' ∨ c = '1') : b2hWord b = .ok (hex3 (binVal b)) := by
  have hne : b ≠ [] := by intro hb; rw [hb] at hlen; simp at hlen
  rw [b2hWord, pyInt_two_01 b hne h01]
  have hneg : ¬((binVal b : Int) < 0) := Int.not_lt.mpr (Int.natCast_nonneg _)
  simp [pyHexInt, hneg, hex3]

/-- C9: on any list of address-tagged 9-bit binary words, `binary_to_hex`
never fails, keeps every address and the order, and yields for each word a
3-character zero-padded uppercase hex string whose value equals the word's
bit value. -/
theorem claim9_hex_formatter (code : List (Nat × PyStr))
    (h : ∀ p ∈ code, (p.2 : PyStr).length = 9 ∧ ∀ c ∈ p.2, c = '0' ∨ c = '1') :
    binary_to_hex code = .ok (code.map (fun p => (p.1, hex3 (binVal p.2)))) ∧
    ∀ p ∈ code, (hex3 (binVal p.2)).length = 3 ∧
      (∀ c ∈ hex3 (binVal p.2), c ∈ pystr "0123456789ABCDEF") ∧
      hexVal (hex3 (binVal p.2)) = binVal p.2 := by
  constructor
  · induction code with
    | nil => rfl
    | cons p rest ih =>
      obtain ⟨a, b⟩ := p
      have hp := h (a, b) (by simp)
      rw [binary_to_hex, b2hWord_valid b hp.1 hp.2,
          ih (fun q hq => h q (by simp [hq]))]
      simp
  · intro p hp
    have hb := h p hp
    have hlt : binVal p.2 < 512 := by
      have hv := binVal_lt p.2
      rw [hb.1] at hv
      norm_num at hv
      exact hv
    exact hex3_props (binVal p.2) hlt

/-- Witness for C9 on two concrete 9-bit words. -/
theorem claim9_hex_formatter_witness :
    binary_to_hex [(0, pystr "111110000"), (4, pystr "000000001")] =
      .ok ([(0, pystr "111110000"), (4, pystr "000000001")].map
        (fun p => (p.1, hex3 (binVal p.2)))) ∧
    ∀ p ∈ ([(0, pystr "111110000"), (4, pystr "000000001")] : List (Nat × PyStr)),
      (hex3 (binVal p.2)).length = 3 ∧
      (∀ c ∈ hex3 (binVal p.2), c ∈ pystr "0123456789ABCDEF") ∧
      hexVal (hex3 (binVal p.2)) = binVal p.2 :=
  claim9_hex_formatter [(0, pystr "111110000"), (4, pystr "000000001")] (by decide)

/-- If the head of `dropWhile p s` is `c`, then `p c` is false. -/
theorem head?_dropWhile_ne (p : Char → Bool) :
    ∀ (s : PyStr) (c : Char), (s.dropWhile p).head? = some c → p c = false := by
  intro s
  induction s with
  | nil => intro c h; simp at h
  | cons x r ih =>
    intro c h
    rw [List.dropWhile_cons] at h
    by_cases hp : p x
    · rw [if_pos hp] at h; exact ih c h
    · rw [if_neg hp] at h
      simp only [List.head?_cons, Option.some.injEq] at h
      rw [← h]
      simpa using hp

/-- A comma-stripped token never ends with a comma. -/
theorem pyStripComma_getLast (s : PyStr) : (pyStripComma s).getLast? ≠ some ',' := by
  intro h
  rw [pyStripComma, dropTrail, List.getLast?_reverse] at h
  have := head?_dropWhile_ne _ _ _ h
  simp at this

/-- A comma-stripped token never starts with a comma. -/
theorem pyStripComma_head (s : PyStr) : (pyStripComma s).head? ≠ some ',' := by
  intro h
  rw [pyStripComma] at h
  have hpre : dropTrail (fun c => c = ',') (s.dropWhile (fun c => c = ',')) <+:
      s.dropWhile (fun c => c = ',') := by
    rw [dropTrail]
    have hs := List.dropWhile_suffix (l := (s.dropWhile (fun c => c = ',')).reverse)
      (fun c => c = ',')
    have := List.reverse_prefix.mpr hs
    rwa [List.reverse_reverse] at this
  obtain ⟨u, hu⟩ := hpre
  have hhead : (s.dropWhile (fun c => c = ',')).head? = some ',' := by
    rw [← hu, List.head?_append, h]
    rfl
  have := head?_dropWhile_ne _ _ _ hhead
  simp at this

/-- C10 (amended): after comment stripping and label splitting, the remaining
text is tokenised on whitespace, the first token upper-cased becomes the
mnemonic, and each subsequent argument token equals the raw whitespace token
with all leading and trailing commas removed (Python `strip(",")`) — in
particular no argument token begins or ends with a comma. -/
theorem claim10_amended :
    ∀ (line : PyStr) (lab : Option PyStr) (m : PyStr) (args : List PyStr),
      parse_line line = (lab, some m, args) →
      (∃ t rest, pyWords (labelSplit (stripCommented line)).2 = t :: rest ∧
         m = t.map pyUpper ∧ args = rest.map pyStripComma) ∧
      ∀ a ∈ args, a.head? ≠ some ',' ∧ a.getLast? ≠ some ',' := by
  intro line lab m args hparse
  rw [parse_line] at hparse
  by_cases h1 : stripCommented line = []
  · rw [if_pos h1] at hparse
    simp at hparse
  rw [if_neg h1] at hparse
  by_cases h2 : (labelSplit (stripCommented line)).2 = []
  · rw [if_pos h2] at hparse
    simp at hparse
  rw [if_neg h2] at hparse
  cases hw : pyWords (labelSplit (stripCommented line)).2 with
  | nil =>
    rw [hw] at hparse
    have hparse2 : ((labelSplit (stripCommented line)).1, (none : Option PyStr),
        ([] : List PyStr)) = (lab, some m, args) := hparse
    simp at hparse2
  | cons t rest =>
    rw [hw] at hparse
    have hparse2 : ((labelSplit (stripCommented line)).1, some (t.map pyUpper),
        rest.map pyStripComma) = (lab, some m, args) := hparse
    cases hparse2
    refine ⟨⟨t, rest, rfl, rfl, rfl⟩, ?_⟩
    intro a ha
    obtain ⟨x, -, rfl⟩ := List.mem_map.mp ha
    exact ⟨pyStripComma_head x, pyStripComma_getLast x⟩

/-- Witness for C10 (amended) on the line `MOV ,5,`. -/
theorem claim10_amended_witness :
    (∃ t rest, pyWords (labelSplit (stripCommented (pystr "MOV ,5,"))).2 = t :: rest ∧
       pystr "MOV" = t.map pyUpper ∧ [pystr "5"] = rest.map pyStripComma) ∧
    ∀ a ∈ [pystr "5"], a.head? ≠ some ',' ∧ a.getLast? ≠ some ',' :=
  claim10_amended (pystr "MOV ,5,") none (pystr "MOV") [pystr "5"] (by decide)

/-- `first_pass` treatment of a parsed non-ORG line: record the label (if
any), advance the counter exactly when a mnemonic is present. -/
theorem fpLine_not_org (st : LabelTable × Nat) (line : PyStr) (lab : Option PyStr)
    (i? : Option PyStr) (args : List PyStr) (hp : parse_line line = (lab, i?, args))
    (hne : i? ≠ some ORGstr) :
    fpLine st line = .ok (recordLabel st.1 lab st.2,
      if i?.isSome then st.2 + 1 else st.2) := by
  rw [fpLine, hp]
  simp only [hne, if_neg, if_false]
  split <;> simp [hne]

/-- `first_pass` treatment of a parsed ORG line: set the counter, keep the
table, record no label. -/
theorem fpLine_org (st : LabelTable × Nat) (line : PyStr) (lab : Option PyStr)
    (tok b : PyStr) (v : Int) (hp : parse_line line = (lab, some ORGstr, [tok]))
    (hres : resolve_argument st.1 tok = .ok b) (hint : pyInt 2 b = some v) :
    fpLine st line = .ok (st.1, v.toNat) := by
  rw [fpLine, hp]
  simp [hres, hint]

/-- `second_pass` treatment of a parsed ORG line. -/
theorem processParsed_org (F : LabelTable) (a : Nat) (lab : Option PyStr)
    (tok b : PyStr) (v : Int) (hres : resolve_argument F tok = .ok b)
    (hint : pyInt 2 b = some v) :
    processParsed F a (lab, some ORGstr, [tok]) = .ok (v.toNat, []) := by
  simp [processParsed, hres, hint]

/-- `second_pass` skips a line without a mnemonic. -/
theorem processParsed_none (F : LabelTable) (a : Nat) (lab : Option PyStr)
    (args : List PyStr) : processParsed F a (lab, none, args) = .ok (a, []) := rfl

/-- Unfolding one line of the `second_pass` loop on a successful line. -/
theorem spGo_cons_ok (F : LabelTable) (n a a2 : Nat) (em : List (Nat × PyStr))
    (l : PyStr) (ls : List PyStr)
    (h : processParsed F a (parse_line l) = .ok (a2, em)) :
    spGo F n a (l :: ls) =
      match spGo F (n + 1) a2 ls with
      | .error e => .error e
      | .ok (af, rest) => .ok (af, em ++ rest) := by
  simp only [spGo, h]

/-- A successfully encoded instruction line of the `second_pass`: known
mnemonic plus a matching arity branch emit exactly one word at the current
address and advance by one. -/
theorem processParsed_encodes (F : LabelTable) (a : Nat) (lab : Option PyStr)
    (m : PyStr) (args : List PyStr)
    (hk : (dictGet? instructions m).isSome = true)
    (he : (m ∈ zeroArgNames ∧ args = []) ∨
          ((m ∈ oneArgNamesA ∨ m ∈ oneArgNamesB) ∧
           ∃ tok b, args = [tok] ∧ resolve_argument F tok = .ok b)) :
    ∃ w, processParsed F a (lab, some m, args) = .ok (a + 1, [(a, w)]) := by
  have hne : m ≠ ORGstr := by
    intro h
    rw [h] at hk
    exact absurd hk (by decide)
  obtain ⟨op, hop⟩ := Option.isSome_iff_exists.mp hk
  rcases he with ⟨hz, rfl⟩ | ⟨hAB, tok, b, rfl, hres⟩
  · refine ⟨op ++ pystr "00000", ?_⟩
    simp [processParsed, hne, hop, hz]
  · have hnz : m ∉ zeroArgNames := by
      rcases hAB with hA | hB
      · simp only [oneArgNamesA] at hA
        rcases (by simpa using hA : m = pystr "JMP" ∨ m = pystr "JEQ" ∨
          m = pystr "OUT" ∨ m = pystr "IN") with rfl | rfl | rfl | rfl <;> decide
      · simp only [oneArgNamesB] at hB
        rcases (by simpa using hB : m = pystr "CMP" ∨ m = pystr "MOV" ∨
          m = pystr "STORE") with rfl | rfl | rfl <;> decide
    refine ⟨op ++ b, ?_⟩
    rcases hAB with hA | hB
    · simp [processParsed, hne, hop, hnz, hA, hres]
    · have hnA : m ∉ oneArgNamesA := by
        simp only [oneArgNamesB] at hB
        rcases (by simpa using hB : m = pystr "CMP" ∨ m = pystr "MOV" ∨
          m = pystr "STORE") with rfl | rfl | rfl <;> decide
      simp [processParsed, hne, hop, hnz, hnA, hB, hres]

/-- Any word a `second_pass` line emits is emitted at the address the counter
held when the line was reached. -/
theorem processParsed_emits_at (F : LabelTable) (a : Nat)
    (trip : Option PyStr × Option PyStr × List PyStr) (a2 : Nat)
    (em : List (Nat × PyStr)) (h : processParsed F a trip = .ok (a2, em)) :
    ∀ p ∈ em, p.1 = a := by
  obtain ⟨lab, i?, args⟩ := trip
  cases i? with
  | none =>
    rw [processParsed_none] at h
    cases h
    simp
  | some m =>
    rcases args with - | ⟨tok, - | ⟨tok2, rest⟩⟩ <;>
      (rw [processParsed] at h
       repeat' split at h
       all_goals try simp_all
       all_goals (obtain ⟨ha, hem⟩ := h; subst hem; simp))

/-- A successful non-ORG `second_pass` line advances the counter by exactly
one. -/
theorem processParsed_addr_succ (F : LabelTable) (a : Nat) (lab : Option PyStr)
    (m : PyStr) (args : List PyStr) (a2 : Nat) (em : List (Nat × PyStr))
    (hne : m ≠ ORGstr)
    (h : processParsed F a (lab, some m, args) = .ok (a2, em)) : a2 = a + 1 := by
  rcases args with - | ⟨tok, - | ⟨tok2, rest⟩⟩ <;>
    (rw [processParsed] at h
     rw [if_neg (by simpa using hne)] at h
     repeat' split at h
     all_goals simp_all)

/-- Lookup is unchanged by recording a label different from the key. -/
theorem dictGet?_recordLabel_ne (L : LabelTable) (lab : Option PyStr) (a : Nat)
    (k : PyStr) (h : ∀ s, lab = some s → s ≠ k) :
    dictGet? (recordLabel L lab a) k = dictGet? L k := by
  cases lab with
  | none => rfl
  | some l =>
    rw [recordLabel]
    split
    · rfl
    · rw [dictInsert, dictGet?, if_neg (h l rfl)]

/-- The three-line C6 counterexample source. -/
def c6lines : List PyStr := [pystr "ORG 10", pystr "NOP", pystr "10: HALT"]

/-- C6 (counterexample): in `["ORG 10", "NOP", "10: HALT"]` the directive
`ORG 10` is followed by two instruction lines and no further ORG, yet the
first instruction is emitted at address 11, not 10: the second pass resolves
the ORG argument `10` as the label `10` (address 11) recorded by the first
pass, which had resolved the same token numerically. -/
theorem claim6_counterexample :
    first_pass [] c6lines = .ok ([(pystr "10", 11)], 12) ∧
    spGo [(pystr "10", 11)] 1 0 c6lines =
      .ok (13, [(11, pystr "000000000"), (12, pystr "100000000")]) ∧
    (11 : Nat) ≠ 10 := by decide

/-- C6 (amended): `ORG 10` followed by two successfully encodable instruction
lines (no further ORG) whose labels, if any, are not the token `10`, places
the first instruction at address 10 and the second at address 11; the ORG
line emits no word and the counter continues 10, 11, 12 from the value it
set. -/
theorem claim6_amended (l1 l2 : PyStr) (lab1 lab2 : Option PyStr)
    (m1 m2 : PyStr) (args1 args2 : List PyStr)
    (hp1 : parse_line l1 = (lab1, some m1, args1))
    (hp2 : parse_line l2 = (lab2, some m2, args2))
    (hl1 : ∀ s, lab1 = some s → s ≠ pystr "10")
    (hl2 : ∀ s, lab2 = some s → s ≠ pystr "10")
    (hk1 : (dictGet? instructions m1).isSome = true)
    (hk2 : (dictGet? instructions m2).isSome = true)
    (he1 : (m1 ∈ zeroArgNames ∧ args1 = []) ∨
           ((m1 ∈ oneArgNamesA ∨ m1 ∈ oneArgNamesB) ∧
            ∃ tok b, args1 = [tok] ∧
              resolve_argument (recordLabel (recordLabel [] lab1 10) lab2 11) tok = .ok b))
    (he2 : (m2 ∈ zeroArgNames ∧ args2 = []) ∨
           ((m2 ∈ oneArgNamesA ∨ m2 ∈ oneArgNamesB) ∧
            ∃ tok b, args2 = [tok] ∧
              resolve_argument (recordLabel (recordLabel [] lab1 10) lab2 11) tok = .ok b)) :
    first_pass [] [pystr "ORG 10", l1, l2] =
      .ok (recordLabel (recordLabel [] lab1 10) lab2 11, 12) ∧
    ∃ w1 w2, spGo (recordLabel (recordLabel [] lab1 10) lab2 11) 1 0
      [pystr "ORG 10", l1, l2] = .ok (12, [(10, w1), (11, w2)]) := by
  have hne1 : m1 ≠ ORGstr := by
    intro h; rw [h] at hk1; exact absurd hk1 (by decide)
  have hne2 : m2 ≠ ORGstr := by
    intro h; rw [h] at hk2; exact absurd hk2 (by decide)
  have hporg : parse_line (pystr "ORG 10") = (none, some ORGstr, [pystr "10"]) := by
    decide
  constructor
  · show fpGo ([], 0) _ = _
    have s1 : fpLine ([], 0) (pystr "ORG 10") = .ok ([], 10) := by decide
    have s2 := fpLine_not_org (([] : LabelTable), 10) l1 lab1 (some m1) args1 hp1
      (by simpa using hne1)
    have s3 := fpLine_not_org ((recordLabel [] lab1 10), 11) l2 lab2 (some m2) args2 hp2
      (by simpa using hne2)
    simp only [fpGo, s1, s2, s3, Option.isSome_some, if_true]
  · set F : LabelTable := recordLabel (recordLabel [] lab1 10) lab2 11 with hF
    have hF10 : dictGet? F (pystr "10") = none := by
      rw [hF, dictGet?_recordLabel_ne _ _ _ _ hl2, dictGet?_recordLabel_ne _ _ _ _ hl1]
      rfl
    have hres10 : resolve_argument F (pystr "10") = .ok (pystr "01010") := by
      rw [resolve_argument, hF10]
      decide
    have p0 : processParsed F 0 (parse_line (pystr "ORG 10")) = .ok (10, []) := by
      rw [hporg]
      exact processParsed_org F 0 none (pystr "10") (pystr "01010") 10 hres10 (by decide)
    obtain ⟨w1, p1⟩ := processParsed_encodes F 10 lab1 m1 args1 hk1 he1
    obtain ⟨w2, p2⟩ := processParsed_encodes F 11 lab2 m2 args2 hk2 he2
    refine ⟨w1, w2, ?_⟩
    rw [spGo_cons_ok F 1 0 10 [] _ _ p0]
    rw [spGo_cons_ok F 2 10 11 [(10, w1)] _ _ (by rw [hp1]; exact p1)]
    rw [spGo_cons_ok F 3 11 12 [(11, w2)] _ _ (by rw [hp2]; exact p2)]
    rfl

/-- Witness for C6 (amended): `ORG 10`, `A: MOV 5`, `HALT`. -/
theorem claim6_amended_witness :
    first_pass [] [pystr "ORG 10", pystr "A: MOV 5", pystr "HALT"] =
      .ok (recordLabel (recordLabel [] (some (pystr "A")) 10) none 11, 12) ∧
    ∃ w1 w2, spGo (recordLabel (recordLabel [] (some (pystr "A")) 10) none 11) 1 0
      [pystr "ORG 10", pystr "A: MOV 5", pystr "HALT"] =
      .ok (12, [(10, w1), (11, w2)]) :=
  claim6_amended (pystr "A: MOV 5") (pystr "HALT") (some (pystr "A")) none
    (pystr "MOV") (pystr "HALT") [pystr "5"] []
    (by decide) (by decide)
    (fun s hs => by cases hs; decide) (fun s hs => by cases hs)
    (by decide) (by decide)
    (Or.inr ⟨Or.inr (by decide), pystr "5", pystr "00101", rfl, by decide⟩)
    (Or.inl ⟨by decide, rfl⟩)

/-- Operand resolution does not depend on the label table when the token is a
key of neither table (only the label branch reads the table). -/
theorem resolve_table_indep (L1 L2 : LabelTable) (tok : PyStr)
    (h1 : dictGet? L1 tok = none) (h2 : dictGet? L2 tok = none) :
    resolve_argument L1 tok = resolve_argument L2 tok := by
  rw [resolve_argument, resolve_argument, h1, h2]

/-- Inversion of `first_pass` on an ORG line: the label table is unchanged
and the counter is set to the resolved value. -/
theorem fpLine_org_inv (st : LabelTable × Nat) (line : PyStr) (lab : Option PyStr)
    (args : List PyStr) (L1 : LabelTable) (a1 : Nat)
    (hp : parse_line line = (lab, some ORGstr, args))
    (h : fpLine st line = .ok (L1, a1)) :
    st.1 = L1 ∧ ∃ tok b v, args = [tok] ∧ resolve_argument st.1 tok = .ok b ∧
      pyInt 2 b = some v ∧ a1 = v.toNat := by
  rw [fpLine, hp] at h
  have h : (match args with
    | [tok] =>
      match resolve_argument st.1 tok with
      | Except.error e => Except.error e
      | Except.ok b =>
        match pyInt 2 b with
        | some v => Except.ok (st.1, v.toNat)
        | none => Except.error (intBase2Msg b)
    | _ => Except.error orgMsg) = Except.ok (L1, a1) := h
  rcases args with - | ⟨tok, - | ⟨t2, ts⟩⟩
  · exact absurd h (by simp)
  · cases hres : resolve_argument st.1 tok with
    | error e => simp only [hres] at h; exact absurd h (by simp)
    | ok b =>
      simp only [hres] at h
      cases hint : pyInt 2 b with
      | none => simp only [hint] at h; exact absurd h (by simp)
      | some v =>
        simp only [hint] at h
        cases h
        exact ⟨rfl, tok, b, v, rfl, hres, hint, rfl⟩
  · exact absurd h (by simp)

/-- Recording a label never removes a key. -/
theorem dictGet?_recordLabel_isSome (L : LabelTable) (lab : Option PyStr) (a : Nat)
    (t : PyStr) (h : (dictGet? L t).isSome = true) :
    (dictGet? (recordLabel L lab a) t).isSome = true := by
  cases lab with
  | none => exact h
  | some l =>
    rw [recordLabel]
    split
    · exact h
    · rw [dictInsert, dictGet?]
      split
      · rfl
      · exact h

/-- One `first_pass` line never removes a key from the table. -/
theorem fpLine_keys_mono (st : LabelTable × Nat) (line : PyStr) (L1 : LabelTable)
    (a1 : Nat) (h : fpLine st line = .ok (L1, a1)) (t : PyStr)
    (hk : (dictGet? st.1 t).isSome = true) : (dictGet? L1 t).isSome = true := by
  rcases hpl : parse_line line with ⟨lab, i?, args⟩
  by_cases hio : i? = some ORGstr
  · subst hio
    obtain ⟨rfl, -⟩ := fpLine_org_inv st line lab args L1 a1 hpl h
    exact hk
  · rw [fpLine_not_org st line lab i? args hpl hio] at h
    cases h
    exact dictGet?_recordLabel_isSome _ _ _ _ hk

/-- The `first_pass` loop never removes a key from the table. -/
theorem fpGo_keys_mono :
    ∀ (ls : List PyStr) (st : LabelTable × Nat) (L2 : LabelTable) (a2 : Nat),
      fpGo st ls = .ok (L2, a2) → ∀ t, (dictGet? st.1 t).isSome = true →
        (dictGet? L2 t).isSome = true := by
  intro ls
  induction ls with
  | nil =>
    intro st L2 a2 h t hk
    obtain ⟨L, a⟩ := st
    cases h
    exact hk
  | cons l ls ih =>
    intro st L2 a2 h t hk
    rw [fpGo] at h
    cases hfl : fpLine st l with
    | error e => simp only [hfl] at h; exact absurd h (by simp)
    | ok st1 =>
      simp only [hfl] at h
      obtain ⟨L1, a1⟩ := st1
      exact ih (L1, a1) L2 a2 h t (fpLine_keys_mono st l L1 a1 hfl t hk)

/-- Every non-empty label of a non-ORG line that `first_pass` walks over ends
up as a key of the final table. -/
theorem fp_label_recorded :
    ∀ (ls : List PyStr) (st : LabelTable × Nat) (F : LabelTable) (af : Nat),
      fpGo st ls = .ok (F, af) →
      ∀ l ∈ ls, ∀ lab i? args, parse_line l = (some lab, i?, args) → lab ≠ [] →
        i? ≠ some ORGstr → (dictGet? F lab).isSome = true := by
  intro ls
  induction ls with
  | nil => intro st F af h l hl; simp at hl
  | cons l0 ls ih =>
    intro st F af h l hl lab i? args hpl hne hio
    rw [fpGo] at h
    cases hfl : fpLine st l0 with
    | error e => simp only [hfl] at h; exact absurd h (by simp)
    | ok st1 =>
      simp only [hfl] at h
      rcases List.mem_cons.mp hl with rfl | hmem
      · rw [fpLine_not_org st l lab i? args hpl hio] at hfl
        cases hfl
        refine fpGo_keys_mono ls _ F af h lab ?_
        rw [recordLabel, if_neg hne, dictInsert, dictGet?, if_pos rfl]
        rfl
      · exact ih st1 F af h l hmem lab i? args hpl hne hio

/-- A successful `first_pass` run decomposes over list append. -/
theorem fpGo_append_ok :
    ∀ (l1 l2 : List PyStr) (st : LabelTable × Nat) (r : LabelTable × Nat),
      fpGo st (l1 ++ l2) = .ok r →
      ∃ st1, fpGo st l1 = .ok st1 ∧ fpGo st1 l2 = .ok r := by
  intro l1
  induction l1 with
  | nil => intro l2 st r h; exact ⟨st, rfl, h⟩
  | cons x xs ih =>
    intro l2 st r h
    rw [List.cons_append, fpGo] at h
    cases hfl : fpLine st x with
    | error e => simp only [hfl] at h; exact absurd h (by simp)
    | ok st1 =>
      simp only [hfl] at h
      obtain ⟨st2, h1, h2⟩ := ih l2 st1 r h
      refine ⟨st2, ?_, h2⟩
      rw [fpGo]
      simp only [hfl]
      exact h1

/-- A successful `second_pass` run succeeds on every prefix. -/
theorem spGo_append_ok :
    ∀ (l1 l2 : List PyStr) (F : LabelTable) (k a af : Nat) (ws : List (Nat × PyStr)),
      spGo F k a (l1 ++ l2) = .ok (af, ws) →
      ∃ a1 w1, spGo F k a l1 = .ok (a1, w1) := by
  intro l1
  induction l1 with
  | nil => intro l2 F k a af ws h; exact ⟨a, [], rfl⟩
  | cons x xs ih =>
    intro l2 F k a af ws h
    rw [List.cons_append, spGo] at h
    cases hpp : processParsed F a (parse_line x) with
    | error e => simp only [hpp] at h; exact absurd h (by simp)
    | ok p =>
      obtain ⟨a2, em⟩ := p
      simp only [hpp] at h
      cases hrest : spGo F (k + 1) a2 (xs ++ l2) with
      | error e => simp only [hrest] at h; exact absurd h (by simp)
      | ok p2 =>
        obtain ⟨af2, ws2⟩ := p2
        obtain ⟨a1, w1, h1⟩ := ih l2 F (k + 1) a2 af2 ws2 hrest
        refine ⟨a1, em ++ w1, ?_⟩
        rw [spGo]
        simp only [hpp, h1]

/-- Core two-pass simulation: starting from the same address, on a line list
whose ORG arguments are keys of neither the running first-pass table nor the
final table, and whose recorded labels all reach the final table, the two
passes end at the same address. -/
theorem fp_sp_agree :
    ∀ (ls : List PyStr) (L : LabelTable) (a k : Nat) (F L2 : LabelTable)
      (af as2 : Nat) (ws : List (Nat × PyStr)),
      fpGo (L, a) ls = .ok (L2, af) →
      spGo F k a ls = .ok (as2, ws) →
      (∀ l ∈ ls, ∀ lab args tok, parse_line l = (lab, some ORGstr, args) →
        tok ∈ args → dictGet? F tok = none) →
      (∀ l ∈ ls, ∀ lab i? args, parse_line l = (some lab, i?, args) → lab ≠ [] →
        i? ≠ some ORGstr → (dictGet? F lab).isSome = true) →
      (∀ t, (dictGet? L t).isSome = true → (dictGet? F t).isSome = true) →
      af = as2 := by
  intro ls
  induction ls with
  | nil =>
    intro L a k F L2 af as2 ws hfp hsp horg hlab hsub
    rw [fpGo] at hfp
    rw [spGo] at hsp
    cases hfp
    cases hsp
    rfl
  | cons l ls ih =>
    intro L a k F L2 af as2 ws hfp hsp horg hlab hsub
    have horgT : ∀ l2 ∈ ls, ∀ lab args tok, parse_line l2 = (lab, some ORGstr, args) →
        tok ∈ args → dictGet? F tok = none :=
      fun l2 hl2 => horg l2 (List.mem_cons_of_mem _ hl2)
    have hlabT : ∀ l2 ∈ ls, ∀ lab i? args, parse_line l2 = (some lab, i?, args) →
        lab ≠ [] → i? ≠ some ORGstr → (dictGet? F lab).isSome = true :=
      fun l2 hl2 => hlab l2 (List.mem_cons_of_mem _ hl2)
    rcases hpl : parse_line l with ⟨lab, i?, args⟩
    rw [fpGo] at hfp
    rw [spGo] at hsp
    by_cases hio : i? = some ORGstr
    · subst hio
      cases hfl : fpLine (L, a) l with
      | error e => simp only [hfl] at hfp; exact absurd hfp (by simp)
      | ok st1 =>
        obtain ⟨L1, a1⟩ := st1
        obtain ⟨hL1, tok, b, v, hargs, hres, hint, ha1⟩ :=
          fpLine_org_inv (L, a) l lab args L1 a1 hpl hfl
        subst hargs
        subst hL1
        subst ha1
        have hFnone : dictGet? F tok = none :=
          horg l (by simp) lab [tok] tok hpl (by simp)
        have hLnone : dictGet? L tok = none := by
          cases hd : dictGet? L tok with
          | none => rfl
          | some x =>
            have hx := hsub tok (by rw [hd]; rfl)
            rw [hFnone] at hx
            exact absurd hx (by simp)
        have hresF : resolve_argument F tok = .ok b := by
          rw [resolve_table_indep F L tok hFnone hLnone]
          exact hres
        have hpp : processParsed F a (parse_line l) = .ok (v.toNat, []) := by
          rw [hpl]
          exact processParsed_org F a lab tok b v hresF hint
        simp only [hfl] at hfp
        simp only [hpp] at hsp
        cases hrest : spGo F (k + 1) v.toNat ls with
        | error e => simp only [hrest] at hsp; exact absurd hsp (by simp)
        | ok p2 =>
          obtain ⟨af2, ws2⟩ := p2
          simp only [hrest] at hsp
          cases hsp
          exact ih _ _ _ F _ _ _ _ hfp hrest horgT hlabT hsub
    · have hfl := fpLine_not_org (L, a) l lab i? args hpl hio
      simp only [hfl] at hfp
      have hsub2 : ∀ t, (dictGet? (recordLabel L lab a) t).isSome = true →
          (dictGet? F t).isSome = true := by
        intro t ht
        cases lab with
        | none => exact hsub t ht
        | some lname =>
          by_cases hemp : lname = []
          · rw [recordLabel, if_pos hemp] at ht
            exact hsub t ht
          · rw [recordLabel, if_neg hemp, dictInsert, dictGet?] at ht
            by_cases heq : lname = t
            · subst heq
              exact hlab l (by simp) lname i? args hpl hemp hio
            · rw [if_neg heq] at ht
              exact hsub t ht
      cases i? with
      | none =>
        have hpp : processParsed F a (parse_line l) = .ok (a, []) := by
          rw [hpl]
          exact processParsed_none F a lab args
        simp only [hpp] at hsp
        cases hrest : spGo F (k + 1) a ls with
        | error e => simp only [hrest] at hsp; exact absurd hsp (by simp)
        | ok p2 =>
          obtain ⟨af2, ws2⟩ := p2
          simp only [hrest] at hsp
          cases hsp
          have hfp2 : fpGo (recordLabel L lab a, a) ls = .ok (L2, af) := by
            simpa using hfp
          exact ih _ _ _ F _ _ _ _ hfp2 hrest horgT hlabT hsub2
      | some m =>
        cases hpp : processParsed F a (parse_line l) with
        | error e => simp only [hpp] at hsp; exact absurd hsp (by simp)
        | ok p =>
          obtain ⟨a2, em⟩ := p
          have ha2 : a2 = a + 1 := by
            apply processParsed_addr_succ F a lab m args a2 em (by simpa using hio)
            rw [← hpl]
            exact hpp
          subst ha2
          simp only [hpp] at hsp
          cases hrest : spGo F (k + 1) (a + 1) ls with
          | error e => simp only [hrest] at hsp; exact absurd hsp (by simp)
          | ok p2 =>
            obtain ⟨af2, ws2⟩ := p2
            simp only [hrest] at hsp
            cases hsp
            have hfp2 : fpGo (recordLabel L lab a, a + 1) ls = .ok (L2, af) := by
              simpa using hfp
            exact ih _ _ _ F _ _ _ _ hfp2 hrest horgT hlabT hsub2

/-- `first_pass` processing decomposes over list append. -/
theorem fpGo_append :
    ∀ (l1 l2 : List PyStr) (st : LabelTable × Nat),
      fpGo st (l1 ++ l2) =
        match fpGo st l1 with
        | .error e => .error e
        | .ok st1 => fpGo st1 l2 := by
  intro l1
  induction l1 with
  | nil => intro l2 st; rfl
  | cons x xs ih =>
    intro l2 st
    rw [List.cons_append]
    simp only [fpGo]
    cases hfl : fpLine st x with
    | error e => rfl
    | ok st1 => exact ih l2 st1

/-- C2 (amended): on a successfully compiled source none of whose ORG
argument tokens is a label in the final table, the two passes make identical
address-counter decisions: the final counters agree, after any prefix of
lines the second pass's counter equals the first pass's counter, and a line
carrying both a (non-empty) label and a non-ORG mnemonic has its label
recorded by the first pass at exactly the address at which the second pass
processes — and emits every word of — that line. -/
theorem claim2_amended (lines : List PyStr) (F : LabelTable) (af asf : Nat)
    (ws : List (Nat × PyStr))
    (hfp : first_pass [] lines = .ok (F, af))
    (hsp : spGo F 1 0 lines = .ok (asf, ws))
    (horg : ∀ l ∈ lines, ∀ lab args tok, parse_line l = (lab, some ORGstr, args) →
      tok ∈ args → dictGet? F tok = none) :
    af = asf ∧
    ∀ (j : Nat) (hj : j < lines.length),
      ∀ (Fj : LabelTable) (aj : Nat), fpGo ([], 0) (lines.take j) = .ok (Fj, aj) →
        (∃ wsj, spGo F 1 0 (lines.take j) = .ok (aj, wsj)) ∧
        (∀ lab m args, parse_line lines[j] = (some lab, some m, args) →
           m ≠ ORGstr → lab ≠ [] →
           ∃ aj2, fpGo ([], 0) (lines.take (j + 1)) =
             .ok (recordLabel Fj (some lab) aj, aj2) ∧
             dictGet? (recordLabel Fj (some lab) aj) lab = some aj) ∧
        (∀ a2 em, processParsed F aj (parse_line lines[j]) = .ok (a2, em) →
           ∀ p ∈ em, p.1 = aj) := by
  have hlab : ∀ l ∈ lines, ∀ lab i? args, parse_line l = (some lab, i?, args) →
      lab ≠ [] → i? ≠ some ORGstr → (dictGet? F lab).isSome = true :=
    fp_label_recorded lines ([], 0) F af hfp
  have hsub0 : ∀ t, (dictGet? ([] : LabelTable) t).isSome = true →
      (dictGet? F t).isSome = true := by
    intro t ht
    simp [dictGet?] at ht
  constructor
  · exact fp_sp_agree lines [] 0 1 F F af asf ws hfp hsp horg hlab hsub0
  · intro j hj Fj aj hfpj
    have hsplit : lines.take j ++ lines.drop j = lines := List.take_append_drop j lines
    obtain ⟨a1, w1, hspj⟩ :=
      spGo_append_ok (lines.take j) (lines.drop j) F 1 0 asf ws (by rw [hsplit]; exact hsp)
    have horgj : ∀ l ∈ lines.take j, ∀ lab args tok,
        parse_line l = (lab, some ORGstr, args) → tok ∈ args →
        dictGet? F tok = none :=
      fun l hl => horg l (List.mem_of_mem_take hl)
    have hlabj : ∀ l ∈ lines.take j, ∀ lab i? args,
        parse_line l = (some lab, i?, args) → lab ≠ [] → i? ≠ some ORGstr →
        (dictGet? F lab).isSome = true :=
      fun l hl => hlab l (List.mem_of_mem_take hl)
    have haeq : aj = a1 :=
      fp_sp_agree (lines.take j) [] 0 1 F Fj aj a1 w1 hfpj hspj horgj hlabj hsub0
    rw [← haeq] at hspj
    refine ⟨⟨w1, hspj⟩, ?_, ?_⟩
    · intro lab m args hplj hm hlabne
      have htake : lines.take (j + 1) = lines.take j ++ [lines[j]] := by
        rw [List.take_succ]
        simp [List.getElem?_eq_getElem hj]
      have hfl := fpLine_not_org (Fj, aj) lines[j] (some lab) (some m) args hplj
        (by simpa using hm)
      refine ⟨aj + 1, ?_, ?_⟩
      · rw [htake, fpGo_append]
        simp only [hfpj, fpGo, hfl]
        rfl
      · rw [recordLabel, if_neg hlabne, dictInsert, dictGet?, if_pos rfl]
    · intro a2 em hppj
      exact processParsed_emits_at F aj _ a2 em hppj

/-- Witness for C2 (amended) on the single line `NOP`. -/
theorem claim2_amended_witness :
    ∃ wsj, spGo [] 1 0 (([pystr "NOP"] : List PyStr).take 0) = .ok (0, wsj) :=
  ((claim2_amended [pystr "NOP"] [] 1 1 [(0, pystr "000000000")]
      (by decide) (by decide)
      (by
        intro l hl lab args tok hp htok
        simp only [List.mem_singleton] at hl
        subst hl
        have hc : parse_line (pystr "NOP") = (none, some (pystr "NOP"), []) := by
          decide
        rw [hc] at hp
        have h2 : some (pystr "NOP") = some ORGstr := congrArg (fun t => t.2.1) hp
        exact absurd h2 (by decide))).2
    0 (by decide) [] 0 rfl).1

end Assembler
